import Mathlib

set_option autoImplicit false

/-!
Verification of the f5chat repository (a natural-language front end for
F5 BIG-IP management) against its specification.

The Go source is shallowly embedded: pure string manipulation becomes Lean
functions on `String`/`List Char`; the HTTP fetches performed by the device
client are abstracted as oracles (`Nat → FetchOutcome`, the outcome of the
n-th network call), so the retry/backoff loops become recursive functions
over those oracles that additionally report how many calls they made and
which backoff delays they slept.

Sources embedded here:
- `bigip/client.go`: `NewClient` connectivity probe, `GetWAFPolicies`,
  `GetWAFPolicyDetails`, `GetPools`.
- `chat/interface.go`: `containsAny`, the branch selection and the WAF
  detail/list sub-branch of `executeOperation`.
- `utils/formatter.go`: `FormatVirtualServers`, `FormatPools`,
  `FormatNodes`, `FormatWAFPolicies`.
-/

namespace F5Chat

/-! ## String helpers

Go's `strings.Contains`, `strings.ToLower` and `strings.Fields` modelled
over `List Char`. Go's versions are Unicode-aware; every string these
programs match against is ASCII, for which the models below agree.
-/

/-- Helper for `strContains`: does `pat` occur contiguously in `l`? -/
def occursIn (pat : List Char) : List Char → Bool
  | [] => pat.isEmpty
  | c :: rest => pat.isPrefixOf (c :: rest) || occursIn pat rest

/-- Model of Go `strings.Contains s pat`. -/
def strContains (s pat : String) : Bool :=
  occursIn pat.toList s.toList

/-- Model of Go `strings.ToLower` (ASCII range, which covers every
comparison made by this program). -/
def goToLower (s : String) : String :=
  String.mk (s.toList.map Char.toLower)

/-- Helper for `goFields`: accumulator-passing word splitter.  `acc` holds
the current in-progress word, reversed. -/
def fieldsAux : List Char → List Char → List (List Char)
  | [], acc => if acc.isEmpty then [] else [acc.reverse]
  | c :: rest, acc =>
    if c.isWhitespace then
      if acc.isEmpty then fieldsAux rest [] else acc.reverse :: fieldsAux rest []
    else fieldsAux rest (c :: acc)

/-- Model of Go `strings.Fields`: split around maximal whitespace runs;
no empty fields are produced. -/
def goFields (s : String) : List String :=
  (fieldsAux s.toList []).map String.mk

/-! ## Data model (`bigip/client.go`)

Entity records carry exactly the fields this repository reads.  The
wrapped go-bigip structs (`VirtualServer`, `Pool`, `Node`) are flattened
to the fields the formatters access.
-/

/-- VirtualServer fields read by `utils.FormatVirtualServers`. -/
structure VirtualServer where
  name : String
  destination : String
  pool : String
  enabled : Bool
  description : String
deriving Repr, DecidableEq

/-- Pool fields read by `utils.FormatPools` (`bigip.Pool`). -/
structure GoPool where
  name : String
  loadBalancingMode : String
  monitor : String
  description : String
deriving Repr, DecidableEq

/-- Node fields read by `utils.FormatNodes` (`bigip.Node`). -/
structure Node where
  name : String
  address : String
  state : String
deriving Repr, DecidableEq

/-- WAFPolicy struct of `bigip/client.go` (fields carried through the
client; the free-form `signatureSettings` map is modelled as an
association list). -/
structure WAFPolicy where
  name : String
  fullPath : String
  id : String
  description : String
  active : Bool
  type : String
  enforcementMode : String
  kind : String
  selfLink : String
  signatureStaging : Bool
  virtualServers : List String
  signatureSetings : List (String × String)
  blockingMode : String
  placeSignatures : Bool
deriving Repr, DecidableEq

/-- ASMPolicy of `bigip/client.go`: embeds the WAFPolicy fields plus
extras that `GetWAFPolicies` does not copy. -/
structure ASMPolicy where
  name : String
  fullPath : String
  id : String
  description : String
  active : Bool
  type : String
  enforcementMode : String
  kind : String
  selfLink : String
  signatureStaging : Bool
  virtualServers : List String
  signatureSetings : List (String × String)
  blockingMode : String
  placeSignatures : Bool
  whitelistIPs : List String
  blacklistIPs : List String
  modificationTime : String
  templateType : String
  manualLock : Bool
  hasParent : Bool
deriving Repr, DecidableEq

/-- ASMPoliciesResponse of `bigip/client.go`. -/
structure ASMPoliciesResponse where
  items : List ASMPolicy
  kind : String
  generation : Int
  selfLink : String
deriving Repr, DecidableEq

/-- Zero value of `ASMPoliciesResponse` (Go `var policies
ASMPoliciesResponse`). -/
def emptyASMResponse : ASMPoliciesResponse :=
  { items := [], kind := "", generation := 0, selfLink := "" }

/-- Field copy performed by `GetWAFPolicies` / `GetWAFPolicyDetails`
(client.go lines 330-345 and 472-487). -/
def wafPolicyOfASMPolicy (p : ASMPolicy) : WAFPolicy :=
  { name := p.name
    fullPath := p.fullPath
    id := p.id
    description := p.description
    active := p.active
    type := p.type
    enforcementMode := p.enforcementMode
    kind := p.kind
    selfLink := p.selfLink
    signatureStaging := p.signatureStaging
    virtualServers := p.virtualServers
    signatureSetings := p.signatureSetings
    blockingMode := p.blockingMode
    placeSignatures := p.placeSignatures }

/-! ## Device-client fetch loops (`bigip/client.go`)

A network fetch (`c.BigIP.APICall` followed by `json.Unmarshal`) either
fails at the transport level with an error string, succeeds but fails to
parse as JSON, or succeeds with a parsed response.  An oracle
`Nat → FetchOutcome` gives the outcome of the n-th call of a loop.
-/

/-- Outcome of one `APICall` + `json.Unmarshal` round. -/
inductive FetchOutcome where
  | apiErr (msg : String)
  | parseErr (msg : String)
  | ok (resp : ASMPoliciesResponse)
deriving Repr, DecidableEq

/-- Attempt bound shared by `NewClient`, `GetWAFPolicies` and
`GetWAFPolicyDetails` (`maxRetries := 3`). -/
def maxRetries : Nat := 3

/-- Base backoff delay in seconds (`baseDelay := 5 * time.Second`). -/
def baseDelaySec : Nat := 5

/-- Backoff cap in seconds (`maxDelay := 30 * time.Second`). -/
def maxDelaySec : Nat := 30

/-- Backoff delay slept before loop iteration `retry` (> 0):
`baseDelay * 2^(retry-1)` capped at `maxDelay` (client.go 236-245). -/
def backoffDelay (retry : Nat) : Nat :=
  min (baseDelaySec * 2 ^ (retry - 1)) maxDelaySec

/-- Error-classification switch of `GetWAFPolicies` (client.go 274-313)
and, identically, of `GetWAFPolicyDetails` (client.go 416-455): the first
substring match in the fixed order decides `shouldRetry`.  `401`/`403`
leave the initial `shouldRetry = false` untouched, `404` sets it to
false explicitly, every later case sets it to true. -/
def shouldRetryWAF (errStr : String) : Bool :=
  let l := goToLower errStr
  if strContains l "401" then false
  else if strContains l "403" then false
  else if strContains l "404" then false
  else if strContains l "409" then true
  else if strContains l "connection" then true
  else if strContains l "certificate" then true
  else if strContains l "timeout" then true
  else true

/-- Retry loop of `GetWAFPolicies` (client.go 235-318), recursing on the
number of loop iterations left; the attempt index is
`maxRetries - remaining`.  Returns the parsed response (or the error) and
the number of API calls made.  A parse failure executes `continue`: when
the loop exhausts this way, control falls out of the loop with `policies`
still holding its zero value `cur`, and the function proceeds to return
that (as an empty policy list) with a nil error. -/
def getWAFPoliciesAux (oracle : Nat → FetchOutcome) :
    Nat → ASMPoliciesResponse → Except String ASMPoliciesResponse × Nat
  | 0, cur => (Except.ok cur, maxRetries)
  | remaining + 1, cur =>
    match oracle (maxRetries - (remaining + 1)) with
    | FetchOutcome.ok resp => (Except.ok resp, maxRetries - (remaining + 1) + 1)
    | FetchOutcome.parseErr _ => getWAFPoliciesAux oracle remaining cur
    | FetchOutcome.apiErr msg =>
      if shouldRetryWAF msg = false ∨ remaining = 0 then
        (Except.error ("failed to get WAF policies: " ++ msg),
          maxRetries - (remaining + 1) + 1)
      else getWAFPoliciesAux oracle remaining cur

/-- GetWAFPolicies (client.go 228-362): run the retry loop from attempt 0
and map the parsed items through the `WAFPolicy` field copy. -/
def GetWAFPolicies (oracle : Nat → FetchOutcome) :
    Except String (List WAFPolicy) × Nat :=
  ((getWAFPoliciesAux oracle maxRetries emptyASMResponse).1.map
      (fun resp => resp.items.map wafPolicyOfASMPolicy),
    (getWAFPoliciesAux oracle maxRetries emptyASMResponse).2)

/-- Retry loop of `GetWAFPolicyDetails` (client.go 379-460); identical to
`getWAFPoliciesAux` but for the wrapped error message. -/
def getWAFPolicyDetailsAux (oracle : Nat → FetchOutcome) :
    Nat → ASMPoliciesResponse → Except String ASMPoliciesResponse × Nat
  | 0, cur => (Except.ok cur, maxRetries)
  | remaining + 1, cur =>
    match oracle (maxRetries - (remaining + 1)) with
    | FetchOutcome.ok resp => (Except.ok resp, maxRetries - (remaining + 1) + 1)
    | FetchOutcome.parseErr _ => getWAFPolicyDetailsAux oracle remaining cur
    | FetchOutcome.apiErr msg =>
      if shouldRetryWAF msg = false ∨ remaining = 0 then
        (Except.error ("failed to get WAF policy details: " ++ msg),
          maxRetries - (remaining + 1) + 1)
      else getWAFPolicyDetailsAux oracle remaining cur

/-- Request URL built by `GetWAFPolicyDetails` (client.go 393). -/
def detailRequestURL (policyName : String) : String :=
  "mgmt/tm/asm/policies?$filter=name+eq+" ++ policyName

/-- GetWAFPolicyDetails (client.go 368-488): empty-name guard before any
network call; then the retry loop; then the zero-items check and the
first-item conversion.  The pair's second component counts API calls. -/
def GetWAFPolicyDetails (policyName : String) (oracle : Nat → FetchOutcome) :
    Except String WAFPolicy × Nat :=
  if policyName = "" then
    (Except.error "policy name cannot be empty", 0)
  else
    match getWAFPolicyDetailsAux oracle maxRetries emptyASMResponse with
    | (Except.error e, c) => (Except.error e, c)
    | (Except.ok resp, c) =>
      match resp.items with
      | [] =>
        (Except.error ("WAF policy \x27" ++ policyName ++ "\x27 not found"), c)
      | p :: _ => (Except.ok (wafPolicyOfASMPolicy p), c)

/-! ## Connection probe of `NewClient` (client.go 124-190) -/

/-- Outcome of one `bigipClient.VirtualServers()` probe call. -/
inductive ProbeOutcome where
  | ok
  | err (msg : String)
deriving Repr, DecidableEq

/-- Observable behaviour of a probe run: whether it reported success, how
many probe calls it made, and the backoff delays (in seconds) it slept. -/
structure ProbeRun where
  success : Bool
  calls : Nat
  sleeps : List Nat
deriving Repr, DecidableEq

/-- Probe loop of `NewClient` (client.go 129-179), recursing on loop
iterations left (`retry = maxRetries - remaining`).  Before iterations
after the first it sleeps `backoffDelay retry`.  On a failed probe whose
error text contains "certificate" the code immediately re-issues one
extra probe inside the same iteration and reports success if that one
succeeds; every other classification only logs. -/
def newClientProbeAux (oracle : Nat → ProbeOutcome) :
    Nat → Nat → List Nat → ProbeRun
  | 0, calls, sleeps => { success := false, calls := calls, sleeps := sleeps }
  | remaining + 1, calls, sleeps =>
    let retry := maxRetries - (remaining + 1)
    let sleeps := if 0 < retry then sleeps ++ [backoffDelay retry] else sleeps
    match oracle calls with
    | ProbeOutcome.ok => { success := true, calls := calls + 1, sleeps := sleeps }
    | ProbeOutcome.err msg =>
      if strContains (goToLower msg) "certificate" then
        match oracle (calls + 1) with
        | ProbeOutcome.ok =>
          { success := true, calls := calls + 2, sleeps := sleeps }
        | ProbeOutcome.err _ => newClientProbeAux oracle remaining (calls + 2) sleeps
      else newClientProbeAux oracle remaining (calls + 1) sleeps

/-- Connectivity probe performed during `NewClient`. -/
def newClientProbe (oracle : Nat → ProbeOutcome) : ProbeRun :=
  newClientProbeAux oracle maxRetries 0 []

/-! ## GetPools (client.go 521-547)

The per-pool member fetch is abstracted as a function from pool name to
either an error or the member full-path list.  The Go `map[string][]string`
is modelled as `String → Option (List String)` with assignment as
functional update, so a later pool with the same name overwrites an
earlier one exactly as the Go map does. -/

/-- Loop body of `GetPools`: every pool is appended to the pool list; a
member-fetch failure skips the map insertion (`continue` after the
warning printf), a success stores the member list under the pool name. -/
def getPoolsLoop (fetchMembers : String → Except String (List String)) :
    List GoPool → (String → Option (List String)) →
    List GoPool × (String → Option (List String))
  | [], m => ([], m)
  | p :: rest, m =>
    let m2 :=
      match fetchMembers p.name with
      | Except.error _ => m
      | Except.ok ms => fun n => if n = p.name then some ms else m n
    ((p :: (getPoolsLoop fetchMembers rest m2).1),
      (getPoolsLoop fetchMembers rest m2).2)

/-- GetPools: wrap the pool-list fetch error, otherwise run the loop with
an empty member map. -/
def GetPools (poolsResp : Except String (List GoPool))
    (fetchMembers : String → Except String (List String)) :
    Except String (List GoPool × (String → Option (List String))) :=
  match poolsResp with
  | Except.error e => Except.error ("failed to get pools: " ++ e)
  | Except.ok pools =>
    Except.ok (getPoolsLoop fetchMembers pools (fun _ => none))

/-! ## Response formatters (`utils/formatter.go`)

Each formatter is a `strings.Builder` whose `WriteString` arguments are
collected into a list; the formatted result is the concatenation of that
list.  Keeping the write list explicit lets theorems speak about the
blocks the formatter emits and their order.
-/

/-- Separator line written between block fields. -/
def sepLine : String := "----------------------------------------\n"

/-- Block header written for the i-th (1-based) virtual server
(formatter.go 28). -/
def vsBlockHeader (i : Nat) : String :=
  "\n[" ++ toString i ++ "] Virtual Server Details:\n"

/-- Status line of a virtual-server block (formatter.go 33-37): `status`
starts as "Enabled" and is overwritten when the flag is false. -/
def vsStatusWrite (v : VirtualServer) : String :=
  "Status:      " ++ (if !v.enabled then "Disabled" else "Enabled") ++ "\n"

/-- Writes of one virtual-server block after its header
(formatter.go 29-41). -/
def vsTailWrites (v : VirtualServer) : List String :=
  [sepLine,
    "Name:        " ++ v.name ++ "\n",
    "Destination: " ++ v.destination ++ "\n",
    "Pool:        " ++ v.pool ++ "\n",
    vsStatusWrite v]
  ++ (if v.description ≠ "" then ["Description: " ++ v.description ++ "\n"] else [])
  ++ [sepLine]

/-- Writes of the i-th (0-based) virtual-server block. -/
def vsServerWrites (i : Nat) (v : VirtualServer) : List String :=
  vsBlockHeader (i + 1) :: vsTailWrites v

/-- WriteString sequence of `FormatVirtualServers` (formatter.go 18-45). -/
def formatVirtualServersWrites (vs : List VirtualServer) : List String :=
  "\n=== Virtual Servers (VIPs) ===\n" ::
    (if vs.length = 0 then ["\nNo virtual servers are currently configured.\n"]
      else ((vs.enum.map (fun iv => vsServerWrites iv.1 iv.2)).flatten))

/-- FormatVirtualServers (formatter.go 18-45). -/
def FormatVirtualServers (vs : List VirtualServer) : String :=
  String.join (formatVirtualServersWrites vs)

/-- Member section of a pool block (formatter.go 63-70): present,
non-empty member lists are numbered; a missing key and an empty list both
render the fixed "No members configured" line. -/
def poolMembersWrites (members : Option (List String)) : List String :=
  "\nPool Members:\n" ::
    (match members with
      | some ms =>
        if 0 < ms.length then
          ms.enum.map (fun jm => "  " ++ toString (jm.1 + 1) ++ ". " ++ jm.2 ++ "\n")
        else ["  No members configured\n"]
      | none => ["  No members configured\n"])

/-- Writes of the i-th (0-based) pool block (formatter.go 56-76). -/
def poolBlockWrites (i : Nat) (p : GoPool)
    (poolMembers : String → Option (List String)) : List String :=
  ["\n[" ++ toString (i + 1) ++ "] Pool Details:\n",
    sepLine,
    "Name:         " ++ p.name ++ "\n",
    "Load Balance: " ++ p.loadBalancingMode ++ "\n",
    "Monitor:      " ++ p.monitor ++ "\n"]
  ++ poolMembersWrites (poolMembers p.name)
  ++ (if p.description ≠ "" then ["\nDescription: " ++ p.description ++ "\n"] else [])
  ++ [sepLine]

/-- FormatPools (formatter.go 47-79). -/
def FormatPools (pools : List GoPool)
    (poolMembers : String → Option (List String)) : String :=
  String.join
    ("\n=== Server Pools ===\n" ::
      (if pools.length = 0 then ["\nNo server pools are currently configured.\n"]
        else (pools.enum.map (fun ip => poolBlockWrites ip.1 ip.2 poolMembers)).flatten))

/-- Writes of the i-th (0-based) node block (formatter.go 90-97). -/
def nodeBlockWrites (i : Nat) (n : Node) : List String :=
  ["\n[" ++ toString (i + 1) ++ "] Node Details:\n",
    sepLine,
    "Name:    " ++ n.name ++ "\n",
    "Address: " ++ n.address ++ "\n",
    "State:   " ++ n.state ++ "\n",
    sepLine]

/-- FormatNodes (formatter.go 81-100). -/
def FormatNodes (nodes : List Node) : String :=
  String.join
    ("\n=== Backend Nodes ===\n" ::
      (if nodes.length = 0 then ["\nNo backend nodes are currently configured.\n"]
        else (nodes.enum.map (fun ino => nodeBlockWrites ino.1 ino.2)).flatten))

/-- Writes of the empty branch of `FormatWAFPolicies`
(formatter.go 109-119). -/
def wafEmptyWrites : List String :=
  ["\nNo WAF policies are currently configured on this BIG-IP system.\n",
    "\nNote: WAF policies protect web applications from:",
    "\n- SQL injection attacks",
    "\n- Cross-site scripting (XSS)",
    "\n- Request/Response validation",
    "\n- Protocol compliance",
    "\n- Other OWASP Top 10 vulnerabilities\n",
    "\nTo configure a WAF policy, use the BIG-IP Configuration utility or API.\n"]

/-- Writes of the i-th (0-based) WAF-policy block (formatter.go 123-170). -/
def wafBlockWrites (i : Nat) (policy : WAFPolicy) : List String :=
  ["\n[" ++ toString (i + 1) ++ "] WAF Policy Details:\n",
    sepLine,
    "Name: " ++ policy.name ++ "\n",
    "Status: " ++ (if policy.active then "Active" else "Inactive") ++ "\n"]
  ++ (if 0 < policy.virtualServers.length then
        "\nApplied to Virtual Servers:\n" ::
          policy.virtualServers.map (fun vs => "- " ++ vs ++ "\n") ++ ["\n"]
      else ["\nNot currently applied to any Virtual Servers\n\n"])
  ++ (if policy.enforcementMode ≠ "" then
        ["Enforcement Mode: " ++ policy.enforcementMode ++ "\n"]
        ++ (if policy.enforcementMode = "blocking" then
              ["  (Actively blocking detected violations)\n"]
            else if policy.enforcementMode = "transparent" then
              ["  (Monitoring mode - logging only)\n"]
            else [])
      else [])
  ++ (if policy.type ≠ "" then ["Type: " ++ policy.type ++ "\n"] else [])
  ++ ["Signature Staging: " ++
        (if policy.signatureStaging then "Enabled (New signatures in staging mode)"
          else "Disabled (All signatures in production)") ++ "\n"]
  ++ (if 0 < policy.virtualServers.length then
        "\nAssociated Virtual Servers:\n" ::
          policy.virtualServers.map (fun vs => "- " ++ vs ++ "\n")
      else [])
  ++ (if policy.description ≠ "" then ["\nDescription: " ++ policy.description ++ "\n"] else [])
  ++ [sepLine]

/-- Trailer writes of the non-empty branch of `FormatWAFPolicies`
(formatter.go 172-176). -/
def wafTrailerWrites : List String :=
  ["\nNote: WAF policies are configured to protect web applications ",
    "from various attacks such as SQL injection, cross-site scripting (XSS), ",
    "and other OWASP Top 10 vulnerabilities.\n",
    "\nTip: To see detailed information about a specific policy, ",
    "ask about \x27policy details for [policy name]\x27\n"]

/-- FormatWAFPolicies (formatter.go 104-179). -/
def FormatWAFPolicies (policies : List WAFPolicy) : String :=
  String.join
    ("\n=== WAF (Web Application Firewall) Policies ===\n" ::
      "Reference: iControl REST API v14.1.0\n" ::
      (if policies.length = 0 then wafEmptyWrites
        else (("\nFound " ++ toString policies.length ++ " WAF Policies:\n") ::
          ((policies.enum.map (fun ip => wafBlockWrites ip.1 ip.2)).flatten
            ++ wafTrailerWrites))))

/-! ## Intent dispatcher (`chat/interface.go`) -/

/-- containsAny (interface.go 42-49). -/
def containsAny (text : String) (phrases : List String) : Bool :=
  phrases.any (fun phrase => strContains text phrase)

/-- WAF keyword set (interface.go 56-61). -/
def wafKeywords : List String :=
  ["waf", "web application firewall",
    "asm", "application security",
    "security policy", "policies",
    "protection", "web security"]

/-- Virtual-server keyword set (interface.go 136). -/
def virtualServerKeywords : List String :=
  ["virtual server", "vip", "virtual ip", "virtual address"]

/-- Pool keyword set (interface.go 145). -/
def poolKeywords : List String :=
  ["pool", "server pool", "backend pool", "server group"]

/-- Node keyword set (interface.go 154). -/
def nodeKeywords : List String :=
  ["node", "server", "backend", "real server"]

/-- Top-level branch chosen by `executeOperation`. -/
inductive Branch where
  | waf
  | virtualServer
  | pool
  | node
  | help
deriving Repr, DecidableEq

/-- Branch selection of `executeOperation` (interface.go 51-167): the
lower-cased model response is tested against the keyword sets in source
order, the first hit deciding the branch, with the help text as
fallback. -/
def executeOperationBranch (llmResponse : String) : Branch :=
  let lowerResponse := goToLower llmResponse
  if containsAny lowerResponse wafKeywords then Branch.waf
  else if containsAny lowerResponse virtualServerKeywords then Branch.virtualServer
  else if containsAny lowerResponse poolKeywords then Branch.pool
  else if containsAny lowerResponse nodeKeywords then Branch.node
  else Branch.help

/-- Secondary check of the WAF branch (interface.go 65-68): a
detail-requesting word plus the word "policy". -/
def detailRequested (lowerResponse : String) : Bool :=
  (strContains lowerResponse "details" ||
    strContains lowerResponse "show" ||
    strContains lowerResponse "get") &&
  strContains lowerResponse "policy"

/-- Policy-name extraction of the detail branch (interface.go 72-86):
known literal substrings first, else the last whitespace-delimited token
of the lower-cased query, else the empty string. -/
def extractPolicyName (originalQuery : String) : String :=
  let query := goToLower originalQuery
  if strContains query "demo" then "demo"
  else if strContains query "vs_waf" then "VS_WAF"
  else
    match (goFields query).getLast? with
    | some w => w
    | none => ""

/-- Operation the WAF branch resolves to. -/
inductive WafAction where
  | detail (policyName : String)
  | nameError
  | listAll
deriving Repr, DecidableEq

/-- WAF branch of `executeOperation` (interface.go 64-108): the secondary
check routes to the detail path (which errors when no policy name can be
determined, interface.go 88-90) and otherwise falls through to listing
all policies. -/
def wafBranchAction (llmResponse originalQuery : String) : WafAction :=
  let lowerResponse := goToLower llmResponse
  if detailRequested lowerResponse then
    let policyName := extractPolicyName originalQuery
    if policyName = "" then WafAction.nameError
    else WafAction.detail policyName
  else WafAction.listAll

/-! ## Spec-side definitions

Definitions transcribed from the specification's words, used only on the
spec side of refinement comparisons.
-/

/-- Priority rank of a dispatcher category, following the spec's order
"security-policy terms > virtual-server terms > pool terms > node terms >
fallback help text". -/
def specBranchRank : Branch → Nat
  | Branch.waf => 0
  | Branch.virtualServer => 1
  | Branch.pool => 2
  | Branch.node => 3
  | Branch.help => 4

/-- Keyword set of a category (the help fallback has none). -/
def specKeywordsOf : Branch → List String
  | Branch.waf => wafKeywords
  | Branch.virtualServer => virtualServerKeywords
  | Branch.pool => poolKeywords
  | Branch.node => nodeKeywords
  | Branch.help => []

/-- Does the lower-cased description match a category's keyword set? -/
def specMatchesCat (lowerResponse : String) (c : Branch) : Bool :=
  containsAny lowerResponse (specKeywordsOf c)

/-- Spec-side routing: "test for membership against five fixed keyword
sets in a fixed priority order ... First match wins", with the help text
as fallback when no set matches. -/
def specFirstMatch (lowerResponse : String) : Branch :=
  (([Branch.waf, Branch.virtualServer, Branch.pool, Branch.node]).find?
      (fun c => specMatchesCat lowerResponse c)).getD Branch.help

/-- Error categories named by the classification switch of
`GetWAFPolicies`/`GetWAFPolicyDetails`. -/
inductive WAFErrClass where
  | c401
  | c403
  | c404
  | c409
  | connection
  | certificate
  | timeout
  | unclassified
deriving Repr, DecidableEq

/-- First-match classification of an error text against the switch order
of client.go 275-313. -/
def classifyWAFErr (errStr : String) : WAFErrClass :=
  let l := goToLower errStr
  if strContains l "401" then WAFErrClass.c401
  else if strContains l "403" then WAFErrClass.c403
  else if strContains l "404" then WAFErrClass.c404
  else if strContains l "409" then WAFErrClass.c409
  else if strContains l "connection" then WAFErrClass.connection
  else if strContains l "certificate" then WAFErrClass.certificate
  else if strContains l "timeout" then WAFErrClass.timeout
  else WAFErrClass.unclassified

/-- Shape of a probe outcome: `none` for success, `some b` for a failure
whose error text does (`b = true`) or does not contain "certificate".
Two oracles of equal shape differ at most in how their failure texts are
classified among the non-certificate categories. -/
def probeShape (o : Nat → ProbeOutcome) (n : Nat) : Option Bool :=
  match o n with
  | ProbeOutcome.ok => none
  | ProbeOutcome.err m => some (strContains (goToLower m) "certificate")

/-! ## Helper lemmas about the string models -/

theorem mem_of_isPrefixOf {c : Char} :
    ∀ (pat l : List Char), pat.isPrefixOf l = true → c ∈ pat → c ∈ l := by
  intro pat
  induction pat with
  | nil => intro l _ hc; cases hc
  | cons a as ih =>
    intro l hp hc
    cases l with
    | nil => simp [List.isPrefixOf] at hp
    | cons b bs =>
      simp only [List.isPrefixOf, Bool.and_eq_true, beq_iff_eq] at hp
      cases hc with
      | head => rw [hp.1]; exact List.mem_cons_self b bs
      | tail _ hc2 => exact List.mem_cons_of_mem b (ih bs hp.2 hc2)

theorem mem_of_occursIn {c : Char} :
    ∀ (l pat : List Char), occursIn pat l = true → c ∈ pat → c ∈ l := by
  intro l
  induction l with
  | nil =>
    intro pat h hc
    simp only [occursIn, List.isEmpty_eq_true] at h
    subst h; cases hc
  | cons b bs ih =>
    intro pat h hc
    simp only [occursIn, Bool.or_eq_true] at h
    rcases h with h | h
    · exact mem_of_isPrefixOf pat (b :: bs) h hc
    · exact List.mem_cons_of_mem b (ih pat h hc)

theorem occursIn_append_right :
    ∀ (l1 l2 pat : List Char), occursIn pat l2 = true →
      occursIn pat (l1 ++ l2) = true := by
  intro l1
  induction l1 with
  | nil => intro l2 pat h; simpa using h
  | cons a as ih =>
    intro l2 pat h
    simp only [List.cons_append, occursIn, Bool.or_eq_true]
    exact Or.inr (ih l2 pat h)

theorem strContains_append_right (a b pat : String)
    (h : strContains b pat = true) : strContains (a ++ b) pat = true := by
  simp only [strContains, String.toList] at h ⊢
  rw [String.data_append]
  exact occursIn_append_right a.data b.data pat.data h

theorem fieldsAux_acc_ne_nil :
    ∀ (l acc : List Char), acc ≠ [] → fieldsAux l acc ≠ [] := by
  intro l
  induction l with
  | nil =>
    intro acc h
    have hE : acc.isEmpty = false := by simp [h]
    simp [fieldsAux, hE]
  | cons c rest ih =>
    intro acc h
    have hE : acc.isEmpty = false := by simp [h]
    by_cases hws : c.isWhitespace = true
    · simp [fieldsAux, hws, hE]
    · simp only [fieldsAux, if_neg hws]
      exact ih (c :: acc) (by simp)

theorem mem_fieldsAux_ne_nil :
    ∀ (l acc w : List Char), w ∈ fieldsAux l acc → w ≠ [] := by
  intro l
  induction l with
  | nil =>
    intro acc w hw
    by_cases h : acc.isEmpty = true
    · simp [fieldsAux, h] at hw
    · simp only [fieldsAux, if_neg h] at hw
      have hacc : acc ≠ [] := by simpa using h
      rw [List.mem_singleton] at hw
      subst hw
      simpa using hacc
  | cons c rest ih =>
    intro acc w hw
    by_cases hws : c.isWhitespace = true
    · simp only [fieldsAux, if_pos hws] at hw
      by_cases h : acc.isEmpty = true
      · rw [if_pos h] at hw
        exact ih [] w hw
      · rw [if_neg h] at hw
        have hacc : acc ≠ [] := by simpa using h
        cases hw with
        | head => simpa using hacc
        | tail _ hw2 => exact ih [] w hw2
    · simp only [fieldsAux, if_neg hws] at hw
      exact ih (c :: acc) w hw

theorem fieldsAux_nil_all_ws :
    ∀ (l : List Char), fieldsAux l [] = [] →
      ∀ c ∈ l, c.isWhitespace = true := by
  intro l
  induction l with
  | nil => intro _ c hc; cases hc
  | cons c rest ih =>
    intro h d hd
    by_cases hws : c.isWhitespace = true
    · simp only [fieldsAux, if_pos hws, List.isEmpty_nil, if_true] at h
      cases hd with
      | head => exact hws
      | tail _ hd2 => exact ih h d hd2
    · simp only [fieldsAux, if_neg hws] at h
      exact absurd h (fieldsAux_acc_ne_nil rest [c] (by simp))

theorem goFields_nil_not_contains (s pat : String) (hpat : pat.toList ≠ [])
    (hne : ∀ c ∈ pat.toList, c.isWhitespace = false)
    (h : goFields s = []) : strContains s pat = false := by
  by_contra hcontra
  rw [Bool.not_eq_false] at hcontra
  rcases List.exists_mem_of_ne_nil pat.toList hpat with ⟨c, hc⟩
  have hcs : c ∈ s.toList := mem_of_occursIn s.toList pat.toList hcontra hc
  have hfa : fieldsAux s.toList [] = [] := by
    simpa [goFields] using h
  have hwsd := fieldsAux_nil_all_ws s.toList hfa c hcs
  rw [hne c hc] at hwsd
  simp at hwsd

/-! ## Claim theorems -/

/-- C7: policy-name extraction, applied to the lower-cased original
query, returns "demo" when the query contains "demo", returns the known
literal "VS_WAF" when it contains "vs_waf" (and not "demo"), otherwise
returns the last whitespace-delimited token, and yields the empty name
(which the dispatcher turns into the indeterminate-policy-name error)
exactly when the lower-cased query has no whitespace-delimited tokens. -/
theorem extractPolicyName_spec (oq : String) :
    (strContains (goToLower oq) "demo" = true → extractPolicyName oq = "demo") ∧
    (strContains (goToLower oq) "demo" = false →
      strContains (goToLower oq) "vs_waf" = true →
      extractPolicyName oq = "VS_WAF") ∧
    (strContains (goToLower oq) "demo" = false →
      strContains (goToLower oq) "vs_waf" = false →
      ∀ w, (goFields (goToLower oq)).getLast? = some w → extractPolicyName oq = w) ∧
    (extractPolicyName oq = "" ↔ goFields (goToLower oq) = []) := by
  refine ⟨?_, ?_, ?_, ?_⟩
  · intro h; simp [extractPolicyName, h]
  · intro h1 h2; simp [extractPolicyName, h1, h2]
  · intro h1 h2 w hw; simp [extractPolicyName, h1, h2, hw]
  · constructor
    · intro h
      by_cases h1 : strContains (goToLower oq) "demo" = true
      · simp [extractPolicyName, h1] at h
      · rw [Bool.not_eq_true] at h1
        by_cases h2 : strContains (goToLower oq) "vs_waf" = true
        · simp [extractPolicyName, h1, h2] at h
        · rw [Bool.not_eq_true] at h2
          cases hf : goFields (goToLower oq) with
          | nil => rfl
          | cons a l =>
            exfalso
            have hval : extractPolicyName oq = (a :: l).getLast (by simp) := by
              simp [extractPolicyName, h1, h2, hf,
                List.getLast?_eq_getLast (a :: l) (by simp)]
            have hlast : (a :: l).getLast (by simp) = "" := by rw [← hval]; exact h
            have hmem : (a :: l).getLast (by simp) ∈ a :: l :=
              List.getLast_mem (by simp)
            rw [hlast] at hmem
            rw [← hf] at hmem
            simp only [goFields, List.mem_map] at hmem
            rcases hmem with ⟨cs, hcs, hmk⟩
            exact mem_fieldsAux_ne_nil _ _ cs hcs (congrArg String.data hmk)
    · intro h
      have h1 : strContains (goToLower oq) "demo" = false :=
        goFields_nil_not_contains _ _ (by decide) (by decide) h
      have h2 : strContains (goToLower oq) "vs_waf" = false :=
        goFields_nil_not_contains _ _ (by decide) (by decide) h
      simp [extractPolicyName, h1, h2, h]

/-- Witness for C7: on the concrete query "list the waf policy app1" the
extraction returns the last token and does not fail; on an all-whitespace
query it yields the empty name. -/
theorem extractPolicyName_spec_witness :
    extractPolicyName "list the waf policy app1" = "app1" ∧
    ¬ extractPolicyName "list the waf policy app1" = "" ∧
    extractPolicyName "   " = "" := by
  have h := extractPolicyName_spec "list the waf policy app1"
  have h2 := extractPolicyName_spec "   "
  have e1 : extractPolicyName "list the waf policy app1" = "app1" :=
    h.2.2.1 (by decide) (by decide) "app1" (by decide)
  refine ⟨e1, ?_, ?_⟩
  · rw [e1]; decide
  · exact (h2.2.2.2).mpr (by decide)

/-- C6: inside the security-policy branch, the detail path is taken
exactly when the lower-cased model description passes the secondary check
(a detail-requesting word and the word "policy"); otherwise the branch
lists all policies.  The detail path itself either resolves to the
extracted policy name or to the indeterminate-name error, never to the
listing. -/
theorem wafBranchAction_detailCond (lr oq : String) :
    (detailRequested (goToLower lr) = false →
      wafBranchAction lr oq = WafAction.listAll) ∧
    (detailRequested (goToLower lr) = true →
      wafBranchAction lr oq ≠ WafAction.listAll) ∧
    (∀ n, wafBranchAction lr oq = WafAction.detail n →
      detailRequested (goToLower lr) = true ∧ n = extractPolicyName oq) := by
  refine ⟨?_, ?_, ?_⟩
  · intro h
    simp [wafBranchAction, h]
  · intro h
    simp only [wafBranchAction, h, if_true]
    by_cases he : extractPolicyName oq = ""
    · simp [he]
    · simp [he]
  · intro n hn
    by_cases h : detailRequested (goToLower lr) = true
    · refine ⟨h, ?_⟩
      simp only [wafBranchAction, h, if_true] at hn
      by_cases he : extractPolicyName oq = ""
      · simp [he] at hn
      · simp only [he, if_false] at hn
        simp only [WafAction.detail.injEq] at hn
        exact hn.symm
    · rw [Bool.not_eq_true] at h
      simp [wafBranchAction, h] at hn

/-- Witness for C6: a description with "show" and "policy" routes to the
detail path for the extracted name, one without routes to list-all. -/
theorem wafBranchAction_detailCond_witness :
    wafBranchAction "Show the security policy named app1" "show policy app1" =
      WafAction.detail "app1" ∧
    wafBranchAction "List all security policies" "list policies" =
      WafAction.listAll := by
  have h1 := wafBranchAction_detailCond "Show the security policy named app1"
    "show policy app1"
  have h2 := wafBranchAction_detailCond "List all security policies" "list policies"
  refine ⟨?_, h2.1 (by decide)⟩
  have hne := h1.2.1 (by decide)
  cases ha : wafBranchAction "Show the security policy named app1" "show policy app1" with
  | listAll => exact absurd ha hne
  | nameError =>
    exfalso
    revert ha
    decide
  | detail n =>
    have hd := h1.2.2 n ha
    rw [hd.2]
    decide

/-- C4: the dispatcher lower-cases the model description, tests it
against the five keyword sets in the fixed priority order (security
policy, virtual server, pool, node, help fallback), takes the first
match, and therefore routes any description matching several categories
to the highest-priority one. -/
theorem executeOperationBranch_priority (d : String) (c : Branch)
    (hm : specMatchesCat (goToLower d) c = true) :
    executeOperationBranch d = specFirstMatch (goToLower d) ∧
    specBranchRank (executeOperationBranch d) ≤ specBranchRank c := by
  have key : executeOperationBranch d = specFirstMatch (goToLower d) := by
    simp only [executeOperationBranch, specFirstMatch, specMatchesCat,
      specKeywordsOf, List.find?]
    cases h1 : containsAny (goToLower d) wafKeywords <;>
      cases h2 : containsAny (goToLower d) virtualServerKeywords <;>
        cases h3 : containsAny (goToLower d) poolKeywords <;>
          cases h4 : containsAny (goToLower d) nodeKeywords <;>
            simp [h1, h2, h3, h4]
  refine ⟨key, ?_⟩
  rw [key]
  cases c with
  | help => simp [specMatchesCat, specKeywordsOf, containsAny] at hm
  | waf =>
    simp only [specMatchesCat, specKeywordsOf] at hm
    simp [specFirstMatch, List.find?, hm, specMatchesCat, specKeywordsOf,
      specBranchRank]
  | virtualServer =>
    simp only [specMatchesCat, specKeywordsOf] at hm
    cases h1 : containsAny (goToLower d) wafKeywords <;>
      simp [specFirstMatch, List.find?, h1, hm, specMatchesCat, specKeywordsOf,
        specBranchRank]
  | pool =>
    simp only [specMatchesCat, specKeywordsOf] at hm
    cases h1 : containsAny (goToLower d) wafKeywords <;>
      cases h2 : containsAny (goToLower d) virtualServerKeywords <;>
        simp [specFirstMatch, List.find?, h1, h2, hm, specMatchesCat,
          specKeywordsOf, specBranchRank]
  | node =>
    simp only [specMatchesCat, specKeywordsOf] at hm
    cases h1 : containsAny (goToLower d) wafKeywords <;>
      cases h2 : containsAny (goToLower d) virtualServerKeywords <;>
        cases h3 : containsAny (goToLower d) poolKeywords <;>
          simp [specFirstMatch, List.find?, h1, h2, h3, hm, specMatchesCat,
            specKeywordsOf, specBranchRank]

/-- Witness for C4: "security policy for the app pool" matches both the
security-policy and the pool keyword sets and routes to the
higher-priority security-policy branch. -/
theorem executeOperationBranch_priority_witness :
    specMatchesCat (goToLower "Security policy for the app pool") Branch.pool = true ∧
    specMatchesCat (goToLower "Security policy for the app pool") Branch.waf = true ∧
    executeOperationBranch "Security policy for the app pool" =
      specFirstMatch (goToLower "Security policy for the app pool") ∧
    specBranchRank (executeOperationBranch "Security policy for the app pool") ≤
      specBranchRank Branch.pool ∧
    executeOperationBranch "Security policy for the app pool" = Branch.waf := by
  have h := executeOperationBranch_priority "Security policy for the app pool"
    Branch.pool (by decide)
  exact ⟨by decide, by decide, h.1, h.2, by decide⟩

/-- C9: each entity-list formatter applied to an empty list returns its
fixed non-empty "none configured" text (for `FormatPools` independently
of the member map); the formatters are total `String`-valued functions
with no error outcome. -/
theorem formatters_empty_noneConfigured :
    (FormatVirtualServers [] ≠ "" ∧
      strContains (FormatVirtualServers [])
        "No virtual servers are currently configured." = true) ∧
    ((∀ m, FormatPools [] m = FormatPools [] (fun _ => none)) ∧
      FormatPools [] (fun _ => none) ≠ "" ∧
      strContains (FormatPools [] (fun _ => none))
        "No server pools are currently configured." = true) ∧
    (FormatNodes [] ≠ "" ∧
      strContains (FormatNodes [])
        "No backend nodes are currently configured." = true) ∧
    (FormatWAFPolicies [] ≠ "" ∧
      strContains (FormatWAFPolicies [])
        "No WAF policies are currently configured on this BIG-IP system." = true) := by
  refine ⟨⟨by decide, by decide⟩, ⟨fun m => rfl, by decide, by decide⟩,
    ⟨by decide, by decide⟩, ⟨by decide, by decide⟩⟩


/-- C3: `GetWAFPolicyDetails` with a blank name fails without any network
call; with a non-blank name it issues the fetch filtered by exact name
match, fails with a not-found error when the response carries zero items,
and returns the first item (converted to a `WAFPolicy`) otherwise. -/
theorem GetWAFPolicyDetails_spec :
    (∀ oracle, GetWAFPolicyDetails "" oracle =
      (Except.error "policy name cannot be empty", 0)) ∧
    (∀ name, detailRequestURL name =
      "mgmt/tm/asm/policies?$filter=name+eq+" ++ name) ∧
    (∀ name oracle resp, name ≠ "" → oracle 0 = FetchOutcome.ok resp →
      (resp.items = [] →
        GetWAFPolicyDetails name oracle =
          (Except.error ("WAF policy \x27" ++ name ++ "\x27 not found"), 1)) ∧
      (∀ p rest, resp.items = p :: rest →
        GetWAFPolicyDetails name oracle =
          (Except.ok (wafPolicyOfASMPolicy p), 1))) := by
  refine ⟨fun oracle => by simp [GetWAFPolicyDetails], fun name => rfl, ?_⟩
  intro name oracle resp hname h0
  have haux : getWAFPolicyDetailsAux oracle maxRetries emptyASMResponse =
      (Except.ok resp, 1) := by
    show getWAFPolicyDetailsAux oracle (2 + 1) emptyASMResponse = _
    simp [getWAFPolicyDetailsAux, maxRetries, h0]
  constructor
  · intro hitems
    simp [GetWAFPolicyDetails, hname, haux, hitems]
  · intro p rest hitems
    simp [GetWAFPolicyDetails, hname, haux, hitems]

/-- Concrete ASM policy used by counterexample oracles. -/
def asmDemo : ASMPolicy :=
  { name := "demo", fullPath := "/Common/demo", id := "pol1", description := ""
    active := true, type := "security", enforcementMode := "blocking"
    kind := "", selfLink := "", signatureStaging := false
    virtualServers := ["/Common/vs1"], signatureSetings := []
    blockingMode := "", placeSignatures := false, whitelistIPs := []
    blacklistIPs := [], modificationTime := "", templateType := ""
    manualLock := false, hasParent := false }

/-- Concrete device response carrying `asmDemo`. -/
def respDemo : ASMPoliciesResponse :=
  { items := [asmDemo], kind := "tm:asm:policies", generation := 1, selfLink := "" }

/-- Witness for C3: concrete runs for the blank name, the zero-item
response and the one-item response. -/
theorem GetWAFPolicyDetails_spec_witness :
    GetWAFPolicyDetails "" (fun _ => FetchOutcome.ok emptyASMResponse) =
      (Except.error "policy name cannot be empty", 0) ∧
    GetWAFPolicyDetails "demo" (fun _ => FetchOutcome.ok emptyASMResponse) =
      (Except.error "WAF policy \x27demo\x27 not found", 1) ∧
    GetWAFPolicyDetails "demo" (fun _ => FetchOutcome.ok respDemo) =
      (Except.ok (wafPolicyOfASMPolicy asmDemo), 1) := by
  have h := GetWAFPolicyDetails_spec
  refine ⟨h.1 (fun _ => FetchOutcome.ok emptyASMResponse), ?_, ?_⟩
  · exact (h.2.2 "demo" (fun _ => FetchOutcome.ok emptyASMResponse)
      emptyASMResponse (by decide) rfl).1 rfl
  · exact (h.2.2 "demo" (fun _ => FetchOutcome.ok respDemo)
      respDemo (by decide) rfl).2 asmDemo [] (by rfl)

/-- C1 (amended): in `GetWAFPolicies`, an API error stops the loop
immediately exactly when its first-matching classification is 401, 403
or 404; errors classified 409, connection, certificate, timeout or
unclassified are retried while attempts remain; and a malformed
(unparseable) response is retried as well rather than terminating. -/
theorem getWAFPolicies_retry_amended :
    (∀ s, shouldRetryWAF s = false ↔
      (classifyWAFErr s = WAFErrClass.c401 ∨ classifyWAFErr s = WAFErrClass.c403 ∨
        classifyWAFErr s = WAFErrClass.c404)) ∧
    (∀ oracle msg, oracle 0 = FetchOutcome.apiErr msg → shouldRetryWAF msg = false →
      GetWAFPolicies oracle =
        (Except.error ("failed to get WAF policies: " ++ msg), 1)) ∧
    (∀ oracle msg cur r, r ≠ 0 →
      oracle (maxRetries - (r + 1)) = FetchOutcome.apiErr msg →
      shouldRetryWAF msg = true →
      getWAFPoliciesAux oracle (r + 1) cur = getWAFPoliciesAux oracle r cur) ∧
    (∀ oracle msg cur r, oracle (maxRetries - (r + 1)) = FetchOutcome.parseErr msg →
      getWAFPoliciesAux oracle (r + 1) cur = getWAFPoliciesAux oracle r cur) := by
  refine ⟨?_, ?_, ?_, ?_⟩
  · intro s
    simp only [shouldRetryWAF, classifyWAFErr]
    cases ha : strContains (goToLower s) "401" <;>
      cases hb : strContains (goToLower s) "403" <;>
        cases hc : strContains (goToLower s) "404" <;>
          cases hd : strContains (goToLower s) "409" <;>
            cases he : strContains (goToLower s) "connection" <;>
              cases hf : strContains (goToLower s) "certificate" <;>
                cases hg : strContains (goToLower s) "timeout" <;>
                  simp [ha, hb, hc, hd, he, hf, hg]
  · intro oracle msg h0 hsr
    have haux : getWAFPoliciesAux oracle maxRetries emptyASMResponse =
        (Except.error ("failed to get WAF policies: " ++ msg), 1) := by
      show getWAFPoliciesAux oracle (2 + 1) emptyASMResponse = _
      simp [getWAFPoliciesAux, maxRetries, h0, hsr]
    simp [GetWAFPolicies, haux, Except.map]
  · intro oracle msg cur r hr h0 hsr
    simp [getWAFPoliciesAux, h0, hsr, hr]
  · intro oracle msg cur r h0
    simp [getWAFPoliciesAux, h0]

/-- Witness for C1 (amended): a 404-classified error stops after one
call; a connection-classified error at attempt 0 is retried. -/
theorem getWAFPolicies_retry_amended_witness :
    shouldRetryWAF "404 page not found" = false ∧
    GetWAFPolicies (fun _ => FetchOutcome.apiErr "404 page not found") =
      (Except.error "failed to get WAF policies: 404 page not found", 1) ∧
    getWAFPoliciesAux (fun _ => FetchOutcome.apiErr "connection refused")
        (2 + 1) emptyASMResponse =
      getWAFPoliciesAux (fun _ => FetchOutcome.apiErr "connection refused")
        2 emptyASMResponse ∧
    getWAFPoliciesAux (fun _ => FetchOutcome.parseErr "invalid character")
        (1 + 1) emptyASMResponse =
      getWAFPoliciesAux (fun _ => FetchOutcome.parseErr "invalid character")
        1 emptyASMResponse := by
  have h := getWAFPolicies_retry_amended
  refine ⟨by decide, ?_, ?_, ?_⟩
  · exact h.2.1 (fun _ => FetchOutcome.apiErr "404 page not found")
      "404 page not found" rfl (by decide)
  · exact h.2.2.1 (fun _ => FetchOutcome.apiErr "connection refused")
      "connection refused" emptyASMResponse 2 (by decide) rfl (by decide)
  · exact h.2.2.2 (fun _ => FetchOutcome.parseErr "invalid character")
      "invalid character" emptyASMResponse 1 rfl

/-- Oracle whose first call returns a malformed (unparseable) body and
whose second call succeeds. -/
def oracleParseThenOk : Nat → FetchOutcome :=
  fun n => if n = 0 then FetchOutcome.parseErr "invalid character" else FetchOutcome.ok respDemo

/-- Counterexample to C1 as stated: a malformed response on the first
attempt does not terminate `GetWAFPolicies`; the fetch is attempted again
(two calls are made) and the run succeeds. -/
theorem getWAFPolicies_parse_retried_counterexample :
    GetWAFPolicies oracleParseThenOk =
      (Except.ok [wafPolicyOfASMPolicy asmDemo], 2) ∧
    (GetWAFPolicies oracleParseThenOk).2 ≠ 1 := by
  constructor
  · rfl
  · decide

theorem newClientProbeAux_shape (o1 o2 : Nat → ProbeOutcome)
    (hs : ∀ n, probeShape o1 n = probeShape o2 n) :
    ∀ rem calls sleeps,
      newClientProbeAux o1 rem calls sleeps = newClientProbeAux o2 rem calls sleeps := by
  intro rem
  induction rem with
  | zero => intro calls sleeps; rfl
  | succ r ih =>
    intro calls sleeps
    have h0 := hs calls
    cases hc1 : o1 calls with
    | ok =>
      cases hc2 : o2 calls with
      | ok => simp only [newClientProbeAux, hc1, hc2]
      | err m2 => simp [probeShape, hc1, hc2] at h0
    | err m1 =>
      cases hc2 : o2 calls with
      | ok => simp [probeShape, hc1, hc2] at h0
      | err m2 =>
        simp only [probeShape, hc1, hc2, Option.some.injEq] at h0
        simp only [newClientProbeAux, hc1, hc2, ← h0]
        cases hcert : strContains (goToLower m1) "certificate" with
        | false => simp only [hcert, Bool.false_eq_true, if_false]; exact ih _ _
        | true =>
          simp only [hcert, if_true]
          have h1 := hs (calls + 1)
          cases hd1 : o1 (calls + 1) with
          | ok =>
            cases hd2 : o2 (calls + 1) with
            | ok => simp only [hd1, hd2]
            | err n2 => simp [probeShape, hd1, hd2] at h1
          | err n1 =>
            cases hd2 : o2 (calls + 1) with
            | ok => simp [probeShape, hd1, hd2] at h1
            | err n2 =>
              simp only [hd1, hd2]
              exact ih _ _

theorem newClientProbeAux_sleeps (o : Nat → ProbeOutcome) :
    ∀ rem, rem ≤ maxRetries → ∀ calls sleeps,
      (newClientProbeAux o rem calls sleeps).sleeps <+:
        sleeps ++ ((List.range' 1 2).drop (2 - rem)).map backoffDelay := by
  intro rem
  induction rem with
  | zero =>
    intro _ calls sleeps
    simp [newClientProbeAux]
  | succ r ih =>
    intro hle calls sleeps
    have hr : r ≤ 2 := by simp only [maxRetries] at hle; omega
    rw [newClientProbeAux.eq_2]
    interval_cases r
    · cases ho : o calls with
      | ok =>
        simp [ho, maxRetries, List.range'_succ, List.prefix_append_right_inj]
      | err msg =>
        cases hcert : strContains (goToLower msg) "certificate" with
        | true =>
          simp only [ho, hcert, if_true]
          cases ho2 : o (calls + 1) with
          | ok =>
            simp [ho2, maxRetries, List.range'_succ, List.prefix_append_right_inj]
          | err msg2 =>
            simp only [ho2]
            simpa [maxRetries, List.range'_succ, List.append_assoc] using
              ih (by decide) (calls + 2) (sleeps ++ [backoffDelay (maxRetries - (0 + 1))])
        | false =>
          simp only [ho, hcert, Bool.false_eq_true, if_false]
          simpa [maxRetries, List.range'_succ, List.append_assoc] using
            ih (by decide) (calls + 1) (sleeps ++ [backoffDelay (maxRetries - (0 + 1))])
    · cases ho : o calls with
      | ok =>
        simp [ho, maxRetries, List.range'_succ, List.prefix_append_right_inj]
      | err msg =>
        cases hcert : strContains (goToLower msg) "certificate" with
        | true =>
          simp only [ho, hcert, if_true]
          cases ho2 : o (calls + 1) with
          | ok =>
            simp [ho2, maxRetries, List.range'_succ, List.prefix_append_right_inj]
          | err msg2 =>
            simp only [ho2]
            simpa [maxRetries, List.range'_succ, List.append_assoc] using
              ih (by decide) (calls + 2) (sleeps ++ [backoffDelay (maxRetries - (1 + 1))])
        | false =>
          simp only [ho, hcert, Bool.false_eq_true, if_false]
          simpa [maxRetries, List.range'_succ, List.append_assoc] using
            ih (by decide) (calls + 1) (sleeps ++ [backoffDelay (maxRetries - (1 + 1))])
    · cases ho : o calls with
      | ok =>
        simp [ho, maxRetries, List.range'_succ]
      | err msg =>
        cases hcert : strContains (goToLower msg) "certificate" with
        | true =>
          simp only [ho, hcert, if_true]
          cases ho2 : o (calls + 1) with
          | ok =>
            simp [ho2, maxRetries, List.range'_succ]
          | err msg2 =>
            simp only [ho2]
            simpa [maxRetries, List.range'_succ, List.append_assoc] using
              ih (by decide) (calls + 2) sleeps
        | false =>
          simp only [ho, hcert, Bool.false_eq_true, if_false]
          simpa [maxRetries, List.range'_succ, List.append_assoc] using
            ih (by decide) (calls + 1) sleeps

theorem newClientProbeAux_calls (o : Nat → ProbeOutcome) :
    ∀ rem calls sleeps,
      (newClientProbeAux o rem calls sleeps).calls ≤ calls + 2 * rem := by
  intro rem
  induction rem with
  | zero => intro calls sleeps; simp [newClientProbeAux]
  | succ r ih =>
    intro calls sleeps
    simp only [newClientProbeAux]
    cases ho : o calls with
    | ok => simp [ho]; omega
    | err msg =>
      cases hcert : strContains (goToLower msg) "certificate" with
      | true =>
        simp only [hcert, if_true]
        cases ho2 : o (calls + 1) with
        | ok => simp [ho2]
        | err msg2 =>
          calc (newClientProbeAux o r (calls + 2) _).calls
              ≤ calls + 2 + 2 * r := ih _ _
            _ ≤ calls + 2 * (r + 1) := by omega
      | false =>
        simp only [hcert, Bool.false_eq_true, if_false]
        calc (newClientProbeAux o r (calls + 1) _).calls
            ≤ calls + 1 + 2 * r := ih _ _
          _ ≤ calls + 2 * (r + 1) := by omega

/-- C2 (amended): the `NewClient` probe loop runs at most 3 iterations,
sleeping `backoffDelay 1 = 5` seconds before the second and
`backoffDelay 2 = 10` before the third; a run's behaviour depends on the
failed attempts' error texts only through the "certificate" substring
test — connection-refused, DNS, timeout and unauthorized classifications
are logging-only — and because a certificate-classified failure triggers
one immediate extra probe per iteration, a run makes at most
`2 * maxRetries = 6` probe calls. -/
theorem newClientProbe_amended :
    (∀ o1 o2, (∀ n, probeShape o1 n = probeShape o2 n) →
      newClientProbe o1 = newClientProbe o2) ∧
    (∀ o, (newClientProbe o).sleeps <+: [backoffDelay 1, backoffDelay 2]) ∧
    backoffDelay 1 = 5 ∧ backoffDelay 2 = 10 ∧
    (∀ o, (newClientProbe o).calls ≤ 2 * maxRetries) := by
  refine ⟨?_, ?_, by decide, by decide, ?_⟩
  · intro o1 o2 hs
    exact newClientProbeAux_shape o1 o2 hs maxRetries 0 []
  · intro o
    have h := newClientProbeAux_sleeps o maxRetries (Nat.le_refl _) 0 []
    simpa [maxRetries, List.range'_succ] using h
  · intro o
    have h := newClientProbeAux_calls o maxRetries 0 []
    simpa using h

/-- Witness for C2 (amended): two constant failing oracles whose error
texts differ (connection refused versus timeout) but agree on the
certificate test produce identical runs, and a concrete run respects the
sleep and call bounds. -/
theorem newClientProbe_amended_witness :
    newClientProbe (fun _ => ProbeOutcome.err "connection refused") =
      newClientProbe (fun _ => ProbeOutcome.err "i/o timeout") ∧
    (newClientProbe (fun _ => ProbeOutcome.err "boom")).sleeps <+:
      [backoffDelay 1, backoffDelay 2] ∧
    (newClientProbe (fun _ => ProbeOutcome.err "boom")).calls ≤ 2 * maxRetries := by
  refine ⟨newClientProbe_amended.1 _ _ (fun n => rfl),
    newClientProbe_amended.2.1 _, newClientProbe_amended.2.2.2.2 _⟩

/-- Oracle failing with a certificate-classified error first, then two
generic errors, then succeeding. -/
def probeCertFirst : Nat → ProbeOutcome :=
  fun n =>
    [ProbeOutcome.err "x509: certificate signed by unknown authority",
      ProbeOutcome.err "boom", ProbeOutcome.err "boom",
      ProbeOutcome.ok].getD n (ProbeOutcome.err "boom")

/-- Identical to `probeCertFirst` except that the first error text is
classified as a timeout instead. -/
def probeTimeoutFirst : Nat → ProbeOutcome :=
  fun n =>
    [ProbeOutcome.err "net/http: timeout awaiting response headers",
      ProbeOutcome.err "boom", ProbeOutcome.err "boom",
      ProbeOutcome.ok].getD n (ProbeOutcome.err "boom")

/-- Counterexample to C2 as stated: two probe runs that differ only in
the first failure's classification (certificate versus timeout) behave
differently — the certificate run issues an extra in-iteration probe,
consumes the outcome stream faster, reaches the fourth outcome and
succeeds with 4 probe calls, while the timeout run exhausts its 3
iterations and fails construction.  Classification is therefore not
logging-only, and a single construction can make more than 3 probe
calls. -/
theorem newClientProbe_classification_counterexample :
    newClientProbe probeCertFirst =
      { success := true, calls := 4, sleeps := [5, 10] } ∧
    newClientProbe probeTimeoutFirst =
      { success := false, calls := 3, sleeps := [5, 10] } ∧
    newClientProbe probeCertFirst ≠ newClientProbe probeTimeoutFirst := by
  exact ⟨by decide, by decide, by decide⟩


theorem getPoolsLoop_fst (fetch : String → Except String (List String)) :
    ∀ (l : List GoPool) (m : String → Option (List String)),
      (getPoolsLoop fetch l m).1 = l := by
  intro l
  induction l with
  | nil => intro m; rfl
  | cons p rest ih => intro m; simp [getPoolsLoop, ih]

theorem getPoolsLoop_map_not_mem (fetch : String → Except String (List String)) :
    ∀ (l : List GoPool) (m : String → Option (List String)) (n : String),
      (∀ p ∈ l, p.name ≠ n) → (getPoolsLoop fetch l m).2 n = m n := by
  intro l
  induction l with
  | nil => intro m n _; rfl
  | cons p rest ih =>
    intro m n h
    simp only [getPoolsLoop]
    rw [ih _ n (fun q hq => h q (List.mem_cons_of_mem p hq))]
    cases hf : fetch p.name with
    | error e => rfl
    | ok ms =>
      have hne : n ≠ p.name := fun he => h p (List.mem_cons_self p rest) he.symm
      simp [hne]

theorem getPoolsLoop_map_mem (fetch : String → Except String (List String)) :
    ∀ (l : List GoPool) (m : String → Option (List String)) (p : GoPool),
      p ∈ l → (l.map GoPool.name).Nodup →
      (getPoolsLoop fetch l m).2 p.name =
        (match fetch p.name with
          | Except.ok ms => some ms
          | Except.error _ => m p.name) := by
  intro l
  induction l with
  | nil => intro m p hp; cases hp
  | cons q rest ih =>
    intro m p hp hnd
    simp only [List.map_cons, List.nodup_cons, List.mem_map] at hnd
    rcases List.mem_cons.mp hp with rfl | hp2
    · simp only [getPoolsLoop]
      have hrest : ∀ x ∈ rest, x.name ≠ p.name := by
        intro x hx he
        exact hnd.1 ⟨x, hx, he⟩
      rw [getPoolsLoop_map_not_mem fetch rest _ p.name hrest]
      cases hf : fetch p.name with
      | error e => rfl
      | ok ms => simp
    · simp only [getPoolsLoop]
      have hne : p.name ≠ q.name := by
        intro he
        exact hnd.1 ⟨p, hp2, he⟩
      rw [ih _ p hp2 hnd.2]
      cases hf : fetch q.name with
      | error e => rfl
      | ok ms => simp [hne]

/-- C5: when the pool list fetch succeeds and exactly one pool's member
fetch fails, `GetPools` returns no error; every pool is in the returned
list in order, the failed pool's member list reads as empty, and the
other pools' member lists are exactly what their fetches returned. -/
theorem GetPools_memberFailure (pools : List GoPool)
    (fetch : String → Except String (List String)) (k : Nat) (hk : k < pools.length)
    (hnodup : (pools.map GoPool.name).Nodup)
    (hfail : ∃ e, fetch ((pools.get ⟨k, hk⟩).name) = Except.error e)
    (_hok : ∀ j (hj : j < pools.length), j ≠ k →
      ∃ ms, fetch ((pools.get ⟨j, hj⟩).name) = Except.ok ms) :
    GetPools (Except.ok pools) fetch =
      Except.ok (getPoolsLoop fetch pools (fun _ => none)) ∧
    (getPoolsLoop fetch pools (fun _ => none)).1 = pools ∧
    ((getPoolsLoop fetch pools (fun _ => none)).2
      ((pools.get ⟨k, hk⟩).name)).getD [] = [] ∧
    (∀ j (hj : j < pools.length) ms, j ≠ k →
      fetch ((pools.get ⟨j, hj⟩).name) = Except.ok ms →
      (getPoolsLoop fetch pools (fun _ => none)).2
        ((pools.get ⟨j, hj⟩).name) = some ms) := by
  refine ⟨rfl, getPoolsLoop_fst fetch pools _, ?_, ?_⟩
  · rcases hfail with ⟨e, he⟩
    rw [getPoolsLoop_map_mem fetch pools _ (pools.get ⟨k, hk⟩)
      (List.get_mem pools k hk) hnodup]
    rw [List.get_eq_getElem] at he
    simp [he]
  · intro j hj ms _ hfetch
    rw [getPoolsLoop_map_mem fetch pools _ (pools.get ⟨j, hj⟩)
      (List.get_mem pools j hj) hnodup]
    rw [List.get_eq_getElem] at hfetch
    simp [hfetch]

/-- Concrete pools for the GetPools witnesses. -/
def poolA : GoPool :=
  { name := "pool_a", loadBalancingMode := "round-robin", monitor := "http"
    description := "" }

/-- Second concrete pool. -/
def poolB : GoPool :=
  { name := "pool_b", loadBalancingMode := "least-connections", monitor := "tcp"
    description := "backend" }

/-- Third concrete pool. -/
def poolC : GoPool :=
  { name := "pool_c", loadBalancingMode := "round-robin", monitor := ""
    description := "" }

/-- Member-fetch oracle failing for `pool_b` only. -/
def fetchFailB : String → Except String (List String) :=
  fun n =>
    if n = "pool_b" then Except.error "member fetch failed"
    else if n = "pool_a" then Except.ok ["/Common/m1:80"]
    else Except.ok []

/-- Witness for C5: three pools with the middle member fetch failing. -/
theorem GetPools_memberFailure_witness :
    GetPools (Except.ok [poolA, poolB, poolC]) fetchFailB =
      Except.ok (getPoolsLoop fetchFailB [poolA, poolB, poolC] (fun _ => none)) ∧
    (getPoolsLoop fetchFailB [poolA, poolB, poolC] (fun _ => none)).1 =
      [poolA, poolB, poolC] ∧
    ((getPoolsLoop fetchFailB [poolA, poolB, poolC] (fun _ => none)).2
      "pool_b").getD [] = [] ∧
    (getPoolsLoop fetchFailB [poolA, poolB, poolC] (fun _ => none)).2
      "pool_a" = some ["/Common/m1:80"] := by
  have h := GetPools_memberFailure [poolA, poolB, poolC] fetchFailB 1 (by decide)
    (by decide) ⟨"member fetch failed", rfl⟩
    (by
      intro j hj hne
      have hj3 : j < 3 := by simpa using hj
      interval_cases j
      · exact ⟨["/Common/m1:80"], rfl⟩
      · exact absurd rfl hne
      · exact ⟨[], rfl⟩)
  exact ⟨h.1, h.2.1, h.2.2.1, h.2.2.2 0 (by decide) ["/Common/m1:80"] (by decide) rfl⟩

theorem poolMembersWrites_getD (a b : Option (List String))
    (h : a.getD [] = b.getD []) : poolMembersWrites a = poolMembersWrites b := by
  cases a with
  | none =>
    cases b with
    | none => rfl
    | some ms =>
      simp only [Option.getD_none, Option.getD_some] at h
      rw [← h]
      rfl
  | some ms =>
    cases b with
    | none =>
      simp only [Option.getD_none, Option.getD_some] at h
      rw [h]
      rfl
    | some ms2 =>
      simp only [Option.getD_some] at h
      rw [h]

/-- C10: a pool whose member fetch failed is entirely absent from the
returned member map while a pool whose fetch returned zero members is
present with an empty list, yet `FormatPools` renders any two member
maps that agree after defaulting missing keys to the empty list — in
particular these two — identically, so the formatted output cannot
distinguish a failed member fetch from a genuinely empty pool. -/
theorem GetPools_absent_vs_empty :
    (∀ (pools : List GoPool) (fetch : String → Except String (List String))
        (k : Nat) (hk : k < pools.length),
      (pools.map GoPool.name).Nodup →
      (∃ e, fetch ((pools.get ⟨k, hk⟩).name) = Except.error e) →
      (getPoolsLoop fetch pools (fun _ => none)).2 ((pools.get ⟨k, hk⟩).name) = none) ∧
    (∀ (pools : List GoPool) (fetch : String → Except String (List String))
        (k : Nat) (hk : k < pools.length),
      (pools.map GoPool.name).Nodup →
      fetch ((pools.get ⟨k, hk⟩).name) = Except.ok [] →
      (getPoolsLoop fetch pools (fun _ => none)).2 ((pools.get ⟨k, hk⟩).name) = some []) ∧
    (∀ (pools : List GoPool) (m1 m2 : String → Option (List String)),
      (∀ n, (m1 n).getD [] = (m2 n).getD []) →
      FormatPools pools m1 = FormatPools pools m2) := by
  refine ⟨?_, ?_, ?_⟩
  · intro pools fetch k hk hnd hfail
    rcases hfail with ⟨e, he⟩
    rw [getPoolsLoop_map_mem fetch pools _ (pools.get ⟨k, hk⟩)
      (List.get_mem pools k hk) hnd]
    rw [List.get_eq_getElem] at he
    simp [he]
  · intro pools fetch k hk hnd hfetch
    rw [getPoolsLoop_map_mem fetch pools _ (pools.get ⟨k, hk⟩)
      (List.get_mem pools k hk) hnd]
    rw [List.get_eq_getElem] at hfetch
    simp [hfetch]
  · intro pools m1 m2 hm
    have hblock : ∀ (i : Nat) (p : GoPool),
        poolBlockWrites i p m1 = poolBlockWrites i p m2 := by
      intro i p
      simp only [poolBlockWrites]
      rw [poolMembersWrites_getD (m1 p.name) (m2 p.name) (hm p.name)]
    simp only [FormatPools]
    by_cases hp : pools.length = 0
    · simp [hp]
    · simp only [hp, if_false]
      have hmap : List.map (fun ip => poolBlockWrites ip.1 ip.2 m1) pools.enum =
          List.map (fun ip => poolBlockWrites ip.1 ip.2 m2) pools.enum :=
        List.map_congr_left (fun ip _ => hblock ip.1 ip.2)
      rw [hmap]

/-- Member-fetch oracle returning zero members for `pool_b`. -/
def fetchEmptyB : String → Except String (List String) :=
  fun n =>
    if n = "pool_b" then Except.ok []
    else if n = "pool_a" then Except.ok ["/Common/m1:80"]
    else Except.ok []

/-- Witness for C10: with two pools, a failed fetch for `pool_b` leaves
it absent from the map, a zero-member fetch stores an empty entry, and
the two formatted outputs coincide. -/
theorem GetPools_absent_vs_empty_witness :
    (getPoolsLoop fetchFailB [poolA, poolB] (fun _ => none)).2 "pool_b" = none ∧
    (getPoolsLoop fetchEmptyB [poolA, poolB] (fun _ => none)).2 "pool_b" = some [] ∧
    FormatPools [poolA, poolB]
        ((getPoolsLoop fetchFailB [poolA, poolB] (fun _ => none)).2) =
      FormatPools [poolA, poolB]
        ((getPoolsLoop fetchEmptyB [poolA, poolB] (fun _ => none)).2) := by
  have h := GetPools_absent_vs_empty
  refine ⟨h.1 [poolA, poolB] fetchFailB 1 (by decide) (by decide)
      ⟨"member fetch failed", rfl⟩,
    h.2.1 [poolA, poolB] fetchEmptyB 1 (by decide) (by decide) rfl, ?_⟩
  apply h.2.2 [poolA, poolB]
  intro n
  by_cases hb : n = "pool_b"
  · subst hb; decide
  · by_cases ha : n = "pool_a"
    · subst ha; decide
    · simp [getPoolsLoop, fetchFailB, fetchEmptyB, poolA, poolB, ha, hb]


/-- Marker text identifying a virtual-server block. -/
def vsMarker : String := "Virtual Server Details"

/-- Does a write contain the virtual-server block marker? -/
def hasVSMarker (w : String) : Bool := strContains w vsMarker

theorem hasVSMarker_vsBlockHeader (i : Nat) : hasVSMarker (vsBlockHeader i) = true := by
  unfold hasVSMarker vsBlockHeader
  exact strContains_append_right ("\n[" ++ toString i)
    "] Virtual Server Details:\n" vsMarker (by decide)

theorem vsServerWrites_filter (i : Nat) (v : VirtualServer)
    (hclean : ∀ w ∈ vsTailWrites v, hasVSMarker w = false) :
    (vsServerWrites i v).filter hasVSMarker = [vsBlockHeader (i + 1)] := by
  have ht : (vsTailWrites v).filter hasVSMarker = [] :=
    List.filter_eq_nil_iff.mpr (fun a ha => by simp [hclean a ha])
  simp [vsServerWrites, List.filter_cons, hasVSMarker_vsBlockHeader, ht]

theorem vsEnumFrom_filter :
    ∀ (vs : List VirtualServer) (s : Nat),
      (∀ v ∈ vs, ∀ w ∈ vsTailWrites v, hasVSMarker w = false) →
      ((vs.enumFrom s).map (fun iv => vsServerWrites iv.1 iv.2)).flatten.filter
          hasVSMarker =
        (List.range' (s + 1) vs.length).map vsBlockHeader := by
  intro vs
  induction vs with
  | nil => intro s _; simp
  | cons v rest ih =>
    intro s h
    simp only [List.enumFrom_cons, List.map_cons, List.flatten_cons,
      List.filter_append]
    rw [vsServerWrites_filter s v (fun w hw => h v (List.mem_cons_self v rest) w hw)]
    rw [ih (s + 1) (fun v2 hv2 w hw => h v2 (List.mem_cons_of_mem v hv2) w hw)]
    simp only [List.length_cons]
    rw [List.range'_succ]
    rfl

/-- C8: on a non-empty server list whose field texts do not themselves
contain the block marker, `FormatVirtualServers` writes exactly one
"Virtual Server Details" block header per server, numbered 1..n in input
order, and each block's status line maps the boolean enabled flag to
"Enabled"/"Disabled". -/
theorem FormatVirtualServers_blocks (vs : List VirtualServer)
    (hne : vs ≠ [])
    (hclean : ∀ v ∈ vs, ∀ w ∈ vsTailWrites v, hasVSMarker w = false) :
    FormatVirtualServers vs = String.join (formatVirtualServersWrites vs) ∧
    (formatVirtualServersWrites vs).filter hasVSMarker =
      (List.range' 1 vs.length).map vsBlockHeader ∧
    ((formatVirtualServersWrites vs).filter hasVSMarker).length = vs.length ∧
    (∀ i (h : i < vs.length),
      vsStatusWrite (vs.get ⟨i, h⟩) =
        if (vs.get ⟨i, h⟩).enabled then "Status:      Enabled\n"
        else "Status:      Disabled\n") := by
  have hlen : ¬ vs.length = 0 := by
    simpa [List.length_eq_zero] using hne
  have hheader : hasVSMarker "\n=== Virtual Servers (VIPs) ===\n" = false := by decide
  have hfilter : (formatVirtualServersWrites vs).filter hasVSMarker =
      (List.range' 1 vs.length).map vsBlockHeader := by
    simp only [formatVirtualServersWrites, hlen, if_false, List.filter_cons,
      hheader]
    rw [show List.enum vs = vs.enumFrom 0 from rfl]
    exact vsEnumFrom_filter vs 0 hclean
  refine ⟨rfl, hfilter, ?_, ?_⟩
  · rw [hfilter]
    simp
  · intro i h
    simp only [List.get_eq_getElem]
    cases henb : vs[i].enabled <;> simp [vsStatusWrite, henb]

/-- Concrete enabled virtual server. -/
def vsHttp : VirtualServer :=
  { name := "vs_http", destination := "10.0.0.1:80", pool := "pool_a"
    enabled := true, description := "" }

/-- Concrete disabled virtual server. -/
def vsHttps : VirtualServer :=
  { name := "vs_https", destination := "10.0.0.1:443", pool := "pool_b"
    enabled := false, description := "frontend tls" }

/-- Concrete third virtual server. -/
def vsApp : VirtualServer :=
  { name := "vs_app", destination := "10.0.0.2:8080", pool := ""
    enabled := true, description := "" }

/-- Witness for C8: a device reporting 3 virtual servers yields exactly 3
block headers in order, and the disabled server's status line reads
Disabled. -/
theorem FormatVirtualServers_blocks_witness :
    (formatVirtualServersWrites [vsHttp, vsHttps, vsApp]).filter hasVSMarker =
      [vsBlockHeader 1, vsBlockHeader 2, vsBlockHeader 3] ∧
    ((formatVirtualServersWrites [vsHttp, vsHttps, vsApp]).filter
      hasVSMarker).length = 3 ∧
    vsStatusWrite vsHttps = "Status:      Disabled\n" ∧
    vsStatusWrite vsHttp = "Status:      Enabled\n" := by
  have h := FormatVirtualServers_blocks [vsHttp, vsHttps, vsApp]
    (by simp) (by decide)
  refine ⟨?_, h.2.2.1, ?_, ?_⟩
  · rw [h.2.1]
    rfl
  · have h1 := h.2.2.2 1 (by decide)
    simpa using h1
  · have h0 := h.2.2.2 0 (by decide)
    simpa using h0

end F5Chat
